import Mathlib

/-!
Verification of `scripts/run_selected_odds.py` (OddsHarvester).

The script reads two CSV files of match descriptors, tries to resolve each
descriptor to an OddsPortal match page via the site search, and writes one
output row per accepted descriptor.  Strings are embedded as `List Char`;
the Playwright browser effects are abstracted: the search-results page is
represented by the list of href attribute values it exposes, and candidate
page fetches by a function `Str → Option Str` (`none` models any exception
raised while loading or reading a candidate page).
-/

namespace OddsHarvester

/-- Strings of the Python program, embedded as lists of characters. -/
abbrev Str := List Char

/-- Characters matched by Python's `\s` (ASCII range), as used by
`str.strip()` and `re.sub(r"\s+", " ", s)`. -/
def isPySpace (c : Char) : Bool :=
  c.toNat = 32 || c.toNat = 9 || c.toNat = 10 || c.toNat = 13 ||
  c.toNat = 11 || c.toNat = 12

/-- The character class `[a-z0-9 ]` of `_slug`'s final `re.sub`. -/
def keepChar (c : Char) : Bool :=
  (97 ≤ c.toNat && c.toNat ≤ 122) || (48 ≤ c.toNat && c.toNat ≤ 57) ||
  c.toNat = 32

/-- Python `str.lower`, restricted to ASCII letters and the Latin-1
uppercase letters (U+00C0–U+00DE except the multiplication sign U+00D7),
which is how `lower` acts on every character these inputs use. -/
def pyLower (c : Char) : Char :=
  if 65 ≤ c.toNat ∧ c.toNat ≤ 90 then Char.ofNat (c.toNat + 32)
  else if 192 ≤ c.toNat ∧ c.toNat ≤ 222 ∧ c.toNat ≠ 215 then
    Char.ofNat (c.toNat + 32)
  else c

/-- Removal of the leading whitespace, the first half of Python `str.strip`. -/
def lstrip (l : Str) : Str := l.dropWhile isPySpace

/-- Removal of the trailing whitespace, the second half of Python `str.strip`. -/
def rstrip : Str → Str
  | [] => []
  | c :: cs =>
    match rstrip cs with
    | [] => if isPySpace c then [] else [c]
    | r => c :: r

/-- Python `str.strip()`: drop leading and trailing whitespace. -/
def pyStrip (l : Str) : Str := rstrip (lstrip l)

/-- Worker for `collapseWs`; the flag records whether we are inside a
whitespace run whose single replacement space was already emitted. -/
def collapseAux : Bool → Str → Str
  | _, [] => []
  | inRun, c :: cs =>
    if isPySpace c then
      if inRun then collapseAux true cs else ' ' :: collapseAux true cs
    else c :: collapseAux false cs

/-- `re.sub(r"\s+", " ", s)`: replace each maximal whitespace run by one space. -/
def collapseWs (l : Str) : Str := collapseAux false l

/-- `s.replace("&", "and")`. -/
def ampRepl (l : Str) : Str :=
  l.flatMap fun c => if c = '&' then ['a', 'n', 'd'] else [c]

/-- `_slug` from `run_selected_odds.py`: lowercase and strip, replace `&`
by `and`, collapse whitespace runs to single spaces, delete every character
outside `[a-z0-9 ]`, and strip again. -/
def slug (s : Str) : Str :=
  pyStrip ((collapseWs (ampRepl (pyStrip (s.map pyLower)))).filter keepChar)

/-- Python's substring test `needle in hay` on strings. -/
def containsSub (needle : Str) : Str → Bool
  | [] => needle.isEmpty
  | c :: cs => needle.isPrefixOf (c :: cs) || containsSub needle cs

/-- Split `l` around the first occurrence of `sep` (Python
`l.split(sep, 1)` when it yields two parts); `none` when `sep` does not
occur (and, for the inputs used here, `sep` is non-empty). -/
def splitFirst (sep : Str) : Str → Option (Str × Str)
  | [] => if sep.isEmpty then some ([], []) else none
  | c :: cs =>
    if sep.isPrefixOf (c :: cs) then some ([], (c :: cs).drop sep.length)
    else
      match splitFirst sep cs with
      | some (a, b) => some (c :: a, b)
      | none => none

/-- `_split_match`: split on the first `" vs "` when present, otherwise on
the first `"v"`, otherwise return the stripped text with an empty away side. -/
def split_match (m : Str) : Str × Str :=
  match splitFirst (' ' :: 'v' :: 's' :: ' ' :: []) m with
  | some (a, b) => (pyStrip a, pyStrip b)
  | none =>
    match splitFirst ['v'] m with
    | some (a, b) => (pyStrip a, pyStrip b)
    | none => (pyStrip m, [])

/-! ## The candidate extraction and validation of `_search_and_pick_match_link` -/

/-- `ODDSPORTAL_BASE`. -/
def ODDSPORTAL_BASE : Str := ("https://www.oddsportal.com").data

/-- The per-href filter of the candidate-collection loop: the href is
non-empty, does not start with `/search/`, contains `/football/`, and has
at least four `/` characters (`href.count("/") >= 4`). -/
def keepHref (h : Str) : Bool :=
  !h.isEmpty && !(("/search/").data.isPrefixOf h) &&
  containsSub ("/football/").data h &&
  decide (4 ≤ (h.filter fun c => c = '/').length)

/-- The candidate-collection loop: keep hrefs passing `keepHref`, prefix
the base origin, and append each absolute URL only when it is not already
in the accumulated list (`if full not in hrefs: hrefs.append(full)`). -/
def collectHrefsAux (acc : List Str) : List Str → List Str
  | [] => acc
  | h :: rest =>
    if keepHref h then
      if acc.contains (ODDSPORTAL_BASE ++ h) then collectHrefsAux acc rest
      else collectHrefsAux (acc ++ [ODDSPORTAL_BASE ++ h]) rest
    else collectHrefsAux acc rest

/-- Candidate URLs extracted from the anchors of the search-results page. -/
def collectHrefs (anchors : List Str) : List Str := collectHrefsAux [] anchors

/-- Whether one candidate passes the in-page validation: its page loads
(`fetch cand = some txt`) and the slugged page text contains both slugged
team names, which must be non-empty
(`if home_s and away_s and (home_s in t) and (away_s in t)`). -/
def validates (fetch : Str → Option Str) (home_s away_s cand : Str) : Bool :=
  match fetch cand with
  | none => false
  | some txt =>
    let t := slug txt
    !home_s.isEmpty && !away_s.isEmpty && containsSub home_s t &&
    containsSub away_s t

/-- The validation loop over the candidate list: navigate to each candidate
in turn and return the first that validates; an exception while loading or
reading a page (`fetch cand = none`) moves on to the next candidate. -/
def pickValidated (fetch : Str → Option Str) (home_s away_s : Str) :
    List Str → Option Str
  | [] => none
  | cand :: rest =>
    match fetch cand with
    | none => pickValidated fetch home_s away_s rest
    | some txt =>
      let t := slug txt
      if !home_s.isEmpty && !away_s.isEmpty && containsSub home_s t &&
          containsSub away_s t then some cand
      else pickValidated fetch home_s away_s rest

/-- `_search_and_pick_match_link`, with the browser effects abstracted:
`anchors` are the hrefs of the search-results page and `fetch` the
candidate-page loads.  Returns `none` when no candidate was collected,
otherwise the first of the first eight candidates (`hrefs[:8]`) whose page
validates.  The league is not used by this function. -/
def search_and_pick_match_link (anchors : List Str)
    (fetch : Str → Option Str) (home away _league : Str) : Option Str :=
  let hrefs := collectHrefs anchors
  if hrefs.isEmpty then none
  else pickValidated fetch (slug home) (slug away) (hrefs.take 8)

/-! ## Input reading (`_read_input_csv`, headerless branch) -/

/-- Value of a non-empty all-digit string. -/
def digitsVal : Str → Option Nat
  | [] => none
  | ds =>
    if ds.all fun c => 48 ≤ c.toNat ∧ c.toNat ≤ 57 then
      some (ds.foldl (fun n c => 10 * n + (c.toNat - 48)) 0)
    else none

/-- Python `int(s)` on the strings this input uses: optional surrounding
whitespace, an optional sign, then at least one decimal digit
(`ValueError` is `none`). -/
def pyInt (l : Str) : Option Int :=
  match pyStrip l with
  | '+' :: ds => (digitsVal ds).map Int.ofNat
  | '-' :: ds => (digitsVal ds).map fun n => -(Int.ofNat n)
  | ds => (digitsVal ds).map Int.ofNat

/-- The headerless branch of `_read_input_csv`: for each parsed CSV record,
require at least two fields, parse the first as an integer (skip the row on
`ValueError`), strip the match and league texts, and keep the row when the
index is non-zero and the match text non-empty (`if idx and match`).
There is no check of any kind on the shape of the match text. -/
def read_input_csv : List (List Str) → List (Int × Str × Str)
  | [] => []
  | parts :: rest =>
    match parts with
    | p0 :: p1 :: pr =>
      match pyInt (pyStrip p0) with
      | none => read_input_csv rest
      | some idx =>
        let m := pyStrip p1
        let lg := match pr with | lg0 :: _ => pyStrip lg0 | [] => []
        if idx ≠ 0 ∧ m ≠ [] then (idx, m, lg) :: read_input_csv rest
        else read_input_csv rest
    | _ => read_input_csv rest

/-! ## The per-descriptor loop of `main` -/

/-- Serialized status values used by the script. -/
def pendingS : Str := ("pending").data

/-- The status written when a validated link was found. -/
def okS : Str := ("ok").data

/-- The status written in every non-resolved branch of the loop. -/
def linkMissS : Str := ("link-miss").data

/-- The `MatchTask` dataclass (`match` is a Lean keyword, hence
`matchText`). -/
structure MatchTask where
  bucket : Str
  idx : Int
  matchText : Str
  league : Str
  oddsportal_link : Str := []
  status : Str := pendingS
  deriving Repr, DecidableEq

/-- Task construction as in `main`'s input loops. -/
def mkTask (bucket : Str) (idx : Int) (m league : Str) : MatchTask :=
  { bucket := bucket, idx := idx, matchText := m, league := league }

/-- How one call of `_search_and_pick_match_link` terminates, as observed
by `main`'s `try`/`except`: a returned optional link, a Playwright
`TimeoutError`, or any other exception. -/
inductive ResolveOutcome where
  | ret (link : Option Str)
  | timeoutExc
  | otherExc
  deriving Repr, DecidableEq

/-- The body of `main`'s per-task loop: on a truthy returned link store it
and set status `ok`; on a falsy return, on `PWTimeoutError`, and on any
other exception set status `link-miss` (the `[timeout]`/`[error]` tags go
only to the console and the screenshot file names). -/
def runTask (o : ResolveOutcome) (t : MatchTask) : MatchTask :=
  match o with
  | .ret (some l) =>
    if l.isEmpty then { t with status := linkMissS }
    else { t with oddsportal_link := l, status := okS }
  | .ret none => { t with status := linkMissS }
  | .timeoutExc => { t with status := linkMissS }
  | .otherExc => { t with status := linkMissS }

/-- The two bucket labels, in the order `main` reads the input files. -/
def over15S : Str := ("over15").data

/-- The second bucket label. -/
def over05S : Str := ("over05_1h").data

/-- `main`'s task list: all rows of `input/Over15.csv` first, then all rows
of `input/Over05_1h.csv`, each keeping its file order. -/
def buildTasks (rows15 rows05 : List (Int × Str × Str)) : List MatchTask :=
  rows15.map (fun r => mkTask over15S r.1 r.2.1 r.2.2) ++
  rows05.map (fun r => mkTask over05S r.1 r.2.1 r.2.2)

/-- The sequential per-task loop; `f j` is the outcome of the resolution
attempt for the `j`-th task (the browser session is threaded through the
loop, so the outcome may depend on the position in the run). -/
def processAll (f : Nat → ResolveOutcome) : Nat → List MatchTask → List MatchTask
  | _, [] => []
  | j, t :: ts => runTask (f j) t :: processAll f (j + 1) ts

/-- One output CSV record (the fields passed to `writer.writerow`). -/
def taskRow (t : MatchTask) : Str × Int × Str × Str × Str × Str :=
  (t.bucket, t.idx, t.matchText, t.league, t.oddsportal_link, t.status)

/-- The data rows of `out/match_links.csv`, one per task, in task order. -/
def outRows (ts : List MatchTask) : List (Str × Int × Str × Str × Str × Str) :=
  ts.map taskRow

/-! ## The Candidate Scorer, modelled from the spec -/

/-- Whitespace-separated tokens of a string. -/
def splitWsAux (cur : Str) : Str → List Str
  | [] => if cur.isEmpty then [] else [cur.reverse]
  | c :: cs =>
    if isPySpace c then
      if cur.isEmpty then splitWsAux [] cs else cur.reverse :: splitWsAux [] cs
    else splitWsAux (c :: cur) cs

/-- Split a string into its whitespace-separated tokens. -/
def splitWs (l : Str) : List Str := splitWsAux [] l

/-- Modelled from the spec: the Candidate Scorer of spec section 4.4 has no
counterpart in the two source files under `src/` (the script accepts or
rejects candidates with a boolean containment test only); this definition
follows the spec's words.  Score 0 unless both normalized team names occur
as substrings of the normalized candidate text; otherwise base 100 plus 6
per league token of length at least 4 found in the candidate text, the
bonus capped at 30. -/
def score_candidate (home away league ctext : Str) : Nat :=
  let t := slug ctext
  if containsSub (slug home) t ∧ containsSub (slug away) t then
    let toks := (splitWs (slug league)).filter fun w => 4 ≤ w.length
    let cnt := (toks.filter fun w => containsSub w t).length
    100 + min (6 * cnt) 30
  else 0

/-- No two adjacent whitespace characters (the shape `collapseWs` and hence
idempotence of `_slug` turn on). -/
def noAdjSpaces : Str → Bool
  | [] => true
  | [_] => true
  | a :: b :: r => !(isPySpace a && isPySpace b) && noAdjSpaces (b :: r)

/-- The string is empty or starts with a non-whitespace character. -/
def headNotSpace : Str → Bool
  | [] => true
  | c :: _ => !isPySpace c

/-- The string is empty or ends with a non-whitespace character. -/
def noTrailSpace : Str → Bool
  | [] => true
  | [c] => !isPySpace c
  | _ :: cs => noTrailSpace cs

/-! ## Helper lemmas -/

/-- One step of the validation loop: the head candidate is returned exactly
when it validates. -/
theorem pickValidated_cons (fetch : Str → Option Str) (hs aws cand : Str)
    (rest : List Str) :
    pickValidated fetch hs aws (cand :: rest)
      = if validates fetch hs aws cand = true then some cand
        else pickValidated fetch hs aws rest := by
  cases hfc : fetch cand with
  | none => simp [pickValidated, validates, hfc]
  | some txt => simp [pickValidated, validates, hfc]

/-- The validation loop returns the first candidate of the list whose page
validates. -/
theorem pickValidated_eq_find? (fetch : Str → Option Str) (hs aws : Str)
    (l : List Str) :
    pickValidated fetch hs aws l = l.find? (validates fetch hs aws) := by
  induction l with
  | nil => rfl
  | cons c rest ih =>
    rw [pickValidated_cons, List.find?]
    by_cases h : validates fetch hs aws c = true
    · simp [h]
    · simp [Bool.eq_false_iff.mpr h, h, ih]

/-- With an empty slugged team name the validation loop accepts nothing. -/
theorem pickValidated_empty_name (fetch : Str → Option Str) (hs aws : Str)
    (h : hs = [] ∨ aws = []) (l : List Str) :
    pickValidated fetch hs aws l = none := by
  induction l with
  | nil => rfl
  | cons c rest ih =>
    rw [pickValidated_cons]
    have hv : validates fetch hs aws c = false := by
      unfold validates
      cases fetch c with
      | none => rfl
      | some txt => rcases h with h | h <;> simp [h]
    simp [hv, ih]

/-- `runTask` never touches the descriptor fields of the task. -/
theorem runTask_preserves_descriptor (o : ResolveOutcome) (t : MatchTask) :
    (runTask o t).bucket = t.bucket ∧ (runTask o t).idx = t.idx ∧
    (runTask o t).matchText = t.matchText ∧ (runTask o t).league = t.league := by
  cases o with
  | ret link =>
    cases link with
    | none => simp [runTask]
    | some l =>
      by_cases h : l.isEmpty <;> simp [runTask, h]
  | timeoutExc => simp [runTask]
  | otherExc => simp [runTask]

/-- After the loop body every task carries one of the two terminal statuses. -/
theorem runTask_status_terminal (o : ResolveOutcome) (t : MatchTask) :
    (runTask o t).status = okS ∨ (runTask o t).status = linkMissS := by
  cases o with
  | ret link =>
    cases link with
    | none => right; rfl
    | some l =>
      by_cases h : l.isEmpty
      · right; simp [runTask, h]
      · left; simp [runTask, h]
  | timeoutExc => right; rfl
  | otherExc => right; rfl

/-- The loop produces exactly one processed task per input task. -/
theorem processAll_length (f : Nat → ResolveOutcome) (ts : List MatchTask) :
    ∀ j, (processAll f j ts).length = ts.length := by
  induction ts with
  | nil => intro j; rfl
  | cons t rest ih => intro j; simp [processAll, ih]

/-- The `k`-th processed task is the `k`-th input task run at position
`j + k`. -/
theorem processAll_get? (f : Nat → ResolveOutcome) (ts : List MatchTask) :
    ∀ j k, (processAll f j ts).get? k = (ts.get? k).map (runTask (f (j + k))) := by
  induction ts with
  | nil => intro j k; simp [processAll]
  | cons t rest ih =>
    intro j k
    cases k with
    | zero => simp [processAll]
    | succ k =>
      have h : j + 1 + k = j + (k + 1) := by omega
      have hr := ih (j + 1) k
      rw [h] at hr
      simpa [processAll] using hr

/-! ## Claims -/

/-- Claim C1: for every processed descriptor the stored link is non-empty
exactly when the recorded status is the serialized `ok`; every branch of the
per-descriptor loop preserves this, and every non-`ok` terminal status
leaves the link blank. -/
theorem c1_resolved_link_iff_ok (o : ResolveOutcome) (b : Str) (i : Int)
    (m lg : Str) :
    (runTask o (mkTask b i m lg)).oddsportal_link ≠ [] ↔
      (runTask o (mkTask b i m lg)).status = okS := by
  cases o with
  | ret link =>
    cases link with
    | none =>
      exact iff_of_false (fun hc => hc rfl)
        (fun hc => absurd hc (show linkMissS ≠ okS by decide))
    | some l =>
      by_cases h : l = []
      · subst h
        exact iff_of_false (fun hc => hc rfl)
          (fun hc => absurd hc (show linkMissS ≠ okS by decide))
      · have hE : l.isEmpty = false := by simp [h]
        simp only [runTask, mkTask, hE, Bool.false_eq_true, if_false]
        exact iff_of_true h trivial
  | timeoutExc =>
    exact iff_of_false (fun hc => hc rfl)
      (fun hc => absurd hc (show linkMissS ≠ okS by decide))
  | otherExc =>
    exact iff_of_false (fun hc => hc rfl)
      (fun hc => absurd hc (show linkMissS ≠ okS by decide))

/-- Claim C2, counterexample: a descriptor whose search navigation raises
the Playwright timeout gets status `link-miss`, not `timeout`. -/
theorem c2_counterexample :
    (runTask ResolveOutcome.timeoutExc
        (mkTask over15S 1 ("Tigres UANL vs Pachuca CF").data
          ("México Liga MX").data)).status = ("link-miss").data ∧
    ("link-miss").data ≠ ("timeout").data := by decide

/-- Claim C2, amended: every failing outcome of the resolution attempt — a
Playwright timeout, any other exception, and a clean no-candidate return —
records the same status `link-miss`; the words `timeout` and `error` appear
only in console logs and screenshot file names, never in the status field. -/
theorem c2_amended (t : MatchTask) :
    (runTask ResolveOutcome.timeoutExc t).status = linkMissS ∧
    (runTask ResolveOutcome.otherExc t).status = linkMissS ∧
    (runTask (ResolveOutcome.ret none) t).status = linkMissS :=
  ⟨rfl, rfl, rfl⟩

/-- Claim C3, counterexample: when the first collected candidate fails
full-page validation, the loop does try the next one and returns it — a
later candidate replaces the rejected one. -/
theorem c3_counterexample :
    search_and_pick_match_link
        [("/football/mexico/liga-mx/first-match/").data,
         ("/football/mexico/liga-mx/second-match/").data]
        (fun u =>
          if u = ODDSPORTAL_BASE ++ ("/football/mexico/liga-mx/first-match/").data
          then some (("nothing here").data)
          else if u = ODDSPORTAL_BASE ++ ("/football/mexico/liga-mx/second-match/").data
          then some (("Tigres UANL Pachuca CF").data)
          else none)
        (("Tigres UANL").data) (("Pachuca CF").data) (("México Liga MX").data)
      = some (ODDSPORTAL_BASE ++ ("/football/mexico/liga-mx/second-match/").data) := by
  decide

/-- Claim C3, amended: the resolver returns the first of the first eight
collected candidates whose re-fetched page validates (both slugged team
names in the page text); only when all of them fail — or none were
collected — is the result a miss.  A validation failure of the best
candidate therefore does not end the attempt: later candidates are tried. -/
theorem c3_amended (anchors : List Str) (fetch : Str → Option Str)
    (home away lg : Str) :
    search_and_pick_match_link anchors fetch home away lg
      = if (collectHrefs anchors).isEmpty then none
        else ((collectHrefs anchors).take 8).find?
          (validates fetch (slug home) (slug away)) := by
  by_cases h : (collectHrefs anchors).isEmpty
  · simp [search_and_pick_match_link, h]
  · simp [search_and_pick_match_link, h, pickValidated_eq_find?]

/-- Claim C4 (scorer modelled from the spec): the score is 0 exactly when
the hard gate fails, and otherwise it is 100 plus a league bonus of at most
30, so every score lies in the set described by the spec. -/
theorem c4_score_gate_and_range (home away league ctext : Str) :
    (score_candidate home away league ctext = 0 ↔
      (containsSub (slug home) (slug ctext) &&
        containsSub (slug away) (slug ctext)) = false) ∧
    (score_candidate home away league ctext = 0 ∨
      ∃ b, b ≤ 30 ∧ score_candidate home away league ctext = 100 + b) := by
  cases hA : containsSub (slug home) (slug ctext) <;>
    cases hB : containsSub (slug away) (slug ctext) <;>
      simp only [score_candidate, hA, hB] <;> simp

/-- Claim C5: the run yields exactly one output row per accepted input
descriptor, in input order (`Over15` rows first, then `Over05_1h`, each in
file order); every outcome of a resolution attempt, exceptions included, is
absorbed by the loop body into a terminal status that preserves the
descriptor fields, so no descriptor's row is ever omitted. -/
theorem c5_rows_complete_and_ordered (f : Nat → ResolveOutcome)
    (rows15 rows05 : List (Int × Str × Str)) (j : Nat) (o : ResolveOutcome)
    (t : MatchTask) :
    (outRows (processAll f 0 (buildTasks rows15 rows05))).length
        = rows15.length + rows05.length ∧
    (processAll f 0 (buildTasks rows15 rows05)).get? j
        = ((buildTasks rows15 rows05).get? j).map (runTask (f j)) ∧
    (runTask o t).bucket = t.bucket ∧ (runTask o t).idx = t.idx ∧
    (runTask o t).matchText = t.matchText ∧ (runTask o t).league = t.league ∧
    ((runTask o t).status = okS ∨ (runTask o t).status = linkMissS) := by
  refine ⟨?_, ?_, ?_, ?_, ?_, ?_, ?_⟩
  · simp [outRows, processAll_length, buildTasks]
  · simpa using processAll_get? f (buildTasks rows15 rows05) 0 j
  · exact (runTask_preserves_descriptor o t).1
  · exact (runTask_preserves_descriptor o t).2.1
  · exact (runTask_preserves_descriptor o t).2.2.1
  · exact (runTask_preserves_descriptor o t).2.2.2
  · exact runTask_status_terminal o t

/-- Claim C6, counterexample: a row whose match text has no `" vs "` at all
is still accepted by the input reader and still produces exactly one output
row. -/
theorem c6_counterexample :
    containsSub (' ' :: 'v' :: 's' :: ' ' :: []) (("Alpha Beta").data) = false ∧
    read_input_csv [[("3").data, ("Alpha Beta").data]]
      = [(3, ("Alpha Beta").data, [])] ∧
    (outRows (processAll (fun _ => ResolveOutcome.ret none) 0
        (buildTasks (read_input_csv [[("3").data, ("Alpha Beta").data]]) []))).length
      = 1 := by decide

/-- Claim C6, amended: the input reader accepts a row exactly when its first
field parses as a non-zero integer and its stripped match text is
non-empty; the `" vs "` separator is not checked at input time, and a row
lacking it proceeds to resolution (split by the fallback rule) and produces
an output row like any other. -/
theorem c6_amended (p0 p1 : Str) (pr : List Str) :
    read_input_csv [p0 :: p1 :: pr] ≠ [] ↔
      (∃ n, pyInt (pyStrip p0) = some n ∧ n ≠ 0) ∧ pyStrip p1 ≠ [] := by
  cases hp : pyInt (pyStrip p0) with
  | none => simp [read_input_csv, hp]
  | some n =>
    simp only [read_input_csv, hp]
    split_ifs with h
    · exact iff_of_true (by simp)
        ⟨⟨n, rfl, h.1⟩, h.2⟩
    · refine iff_of_false (by simp) ?_
      rintro ⟨⟨n', hn', hne⟩, hm⟩
      exact h ⟨by injection hn' with hh; rw [hh]; exact hne, hm⟩

/-- Claim C10: when either slugged team name is empty, the resolver can
never return a candidate, and the descriptor can never end with status
`ok`. -/
theorem c10_empty_team_never_resolved (anchors : List Str)
    (fetch : Str → Option Str) (home away lg : Str) (t : MatchTask)
    (h : slug home = [] ∨ slug away = []) :
    search_and_pick_match_link anchors fetch home away lg = none ∧
    (runTask (ResolveOutcome.ret
        (search_and_pick_match_link anchors fetch home away lg)) t).status
      = linkMissS := by
  have hnone : search_and_pick_match_link anchors fetch home away lg = none := by
    by_cases he : (collectHrefs anchors).isEmpty
    · simp [search_and_pick_match_link, he]
    · simp [search_and_pick_match_link, he,
        pickValidated_empty_name fetch (slug home) (slug away) h]
  exact ⟨hnone, by rw [hnone]; rfl⟩

/-- Witness for claim C10 at a concrete input. -/
theorem c10_empty_team_never_resolved_witness :
    (slug (("").data) = [] ∨ slug (("x").data) = []) ∧
    (search_and_pick_match_link [] (fun _ => none) (("").data) (("x").data)
        (("lg").data) = none ∧
    (runTask (ResolveOutcome.ret (search_and_pick_match_link []
        (fun _ => none) (("").data) (("x").data) (("lg").data)))
        (mkTask over15S 1 (("x").data) [])).status = linkMissS) :=
  ⟨Or.inl (by decide),
    c10_empty_team_never_resolved [] (fun _ => none) (("").data) (("x").data)
      (("lg").data) (mkTask over15S 1 (("x").data) []) (Or.inl (by decide))⟩

/-- Appending a fresh element to the right keeps a list duplicate-free. -/
theorem nodup_append_singleton {α : Type} (l : List α) (a : α)
    (h : l.Nodup) (ha : a ∉ l) : (l ++ [a]).Nodup := by
  simp [List.nodup_append, h, ha]

/-- The collection loop never stores the same absolute URL twice. -/
theorem collectHrefsAux_nodup (hs : List Str) :
    ∀ acc : List Str, acc.Nodup → (collectHrefsAux acc hs).Nodup := by
  induction hs with
  | nil => intro acc hacc; exact hacc
  | cons h rest ih =>
    intro acc hacc
    by_cases hk : keepHref h
    · by_cases hc : ODDSPORTAL_BASE ++ h ∈ acc
      · simpa [collectHrefsAux, hk, hc] using ih acc hacc
      · simpa [collectHrefsAux, hk, hc] using
          ih (acc ++ [ODDSPORTAL_BASE ++ h])
            (nodup_append_singleton acc _ hacc hc)
    · simpa [collectHrefsAux, hk] using ih acc hacc

/-- Everything the collection loop emits is either carried over from the
accumulator or the base origin glued to an anchor href passing the filter. -/
theorem collectHrefsAux_mem (hs : List Str) :
    ∀ (acc : List Str) (u : Str), u ∈ collectHrefsAux acc hs →
      u ∈ acc ∨ ∃ h, h ∈ hs ∧ keepHref h = true ∧ u = ODDSPORTAL_BASE ++ h := by
  induction hs with
  | nil => intro acc u hu; exact Or.inl hu
  | cons h rest ih =>
    intro acc u hu
    by_cases hk : keepHref h
    · by_cases hc : ODDSPORTAL_BASE ++ h ∈ acc
      · rcases ih acc u (by simpa [collectHrefsAux, hk, hc] using hu) with
          h1 | ⟨g, hg, hkg, hug⟩
        · exact Or.inl h1
        · exact Or.inr ⟨g, List.mem_cons_of_mem _ hg, hkg, hug⟩
      · rcases ih (acc ++ [ODDSPORTAL_BASE ++ h]) u
          (by simpa [collectHrefsAux, hk, hc] using hu) with
          h1 | ⟨g, hg, hkg, hug⟩
        · rcases List.mem_append.mp h1 with h2 | h2
          · exact Or.inl h2
          · exact Or.inr ⟨h, List.mem_cons_self _ _, hk, by simpa using h2⟩
        · exact Or.inr ⟨g, List.mem_cons_of_mem _ hg, hkg, hug⟩
    · rcases ih acc u (by simpa [collectHrefsAux, hk] using hu) with
        h1 | ⟨g, hg, hkg, hug⟩
      · exact Or.inl h1
      · exact Or.inr ⟨g, List.mem_cons_of_mem _ hg, hkg, hug⟩

/-- The collection loop never drops anything already accumulated. -/
theorem collectHrefsAux_mono (hs : List Str) :
    ∀ (acc : List Str) (u : Str), u ∈ acc → u ∈ collectHrefsAux acc hs := by
  induction hs with
  | nil => intro acc u hu; exact hu
  | cons h rest ih =>
    intro acc u hu
    by_cases hk : keepHref h
    · by_cases hc : ODDSPORTAL_BASE ++ h ∈ acc
      · simpa [collectHrefsAux, hk, hc] using ih acc u hu
      · simpa [collectHrefsAux, hk, hc] using
          ih (acc ++ [ODDSPORTAL_BASE ++ h]) u (List.mem_append_left _ hu)
    · simpa [collectHrefsAux, hk] using ih acc u hu

/-- Every filter-passing href contributes its absolute URL to the loop's
output: the dedup check only skips URLs that are already present. -/
theorem collectHrefsAux_complete (hs : List Str) :
    ∀ (acc : List Str) (h : Str), h ∈ hs → keepHref h = true →
      ODDSPORTAL_BASE ++ h ∈ collectHrefsAux acc hs := by
  induction hs with
  | nil => intro acc h hmem _; cases hmem
  | cons g rest ih =>
    intro acc h hmem hk
    rcases List.mem_cons.mp hmem with heq | hmem'
    · subst heq
      by_cases hc : ODDSPORTAL_BASE ++ h ∈ acc
      · simpa [collectHrefsAux, hk, hc] using collectHrefsAux_mono rest acc _ hc
      · simpa [collectHrefsAux, hk, hc] using
          collectHrefsAux_mono rest (acc ++ [ODDSPORTAL_BASE ++ h]) _
            (List.mem_append_right _ (List.mem_singleton.mpr rfl))
    · by_cases hg : keepHref g
      · by_cases hc : ODDSPORTAL_BASE ++ g ∈ acc
        · simpa [collectHrefsAux, hg, hc] using ih acc h hmem' hk
        · simpa [collectHrefsAux, hg, hc] using
            ih (acc ++ [ODDSPORTAL_BASE ++ g]) h hmem' hk
      · simpa [collectHrefsAux, hg] using ih acc h hmem' hk

/-- Claim C9, counterexample: a link under the results/completed-events
path is emitted as a candidate — the extractor has no such exclusion, only
the `/search/` prefix, the `/football/` marker and the slash count. -/
theorem c9_counterexample :
    collectHrefs [("/football/england/results/").data]
      = [ODDSPORTAL_BASE ++ ("/football/england/results/").data] ∧
    containsSub ("/results/").data (("/football/england/results/").data)
      = true := by decide

/-- Claim C9, amended: the extractor's output is deduplicated by resolved
absolute URL, and every candidate is the base origin glued to an input href
that is non-empty, does not start with `/search/`, contains `/football/`
and has at least four slashes; no results/completed-events exclusion
exists, so such links are emitted whenever they meet those conditions. -/
theorem c9_amended (anchors : List Str) :
    (collectHrefs anchors).Nodup ∧
    (∀ u ∈ collectHrefs anchors,
      ∃ h, h ∈ anchors ∧ keepHref h = true ∧ u = ODDSPORTAL_BASE ++ h) ∧
    (∀ h ∈ anchors, keepHref h = true →
      ODDSPORTAL_BASE ++ h ∈ collectHrefs anchors) := by
  refine ⟨collectHrefsAux_nodup anchors [] List.nodup_nil, ?_, ?_⟩
  · intro u hu
    rcases collectHrefsAux_mem anchors [] u hu with h1 | h2
    · cases h1
    · exact h2
  · intro h hmem hk
    exact collectHrefsAux_complete anchors [] h hmem hk

/-- Witness for the amended claim C9 at a concrete input. -/
theorem c9_amended_witness :
    (collectHrefs [("/football/a/b/c/").data]).Nodup ∧
    (∃ h, h ∈ [("/football/a/b/c/").data] ∧ keepHref h = true ∧
      ODDSPORTAL_BASE ++ ("/football/a/b/c/").data = ODDSPORTAL_BASE ++ h) ∧
    ODDSPORTAL_BASE ++ ("/football/a/b/c/").data
      ∈ collectHrefs [("/football/a/b/c/").data] :=
  ⟨(c9_amended [("/football/a/b/c/").data]).1,
    (c9_amended [("/football/a/b/c/").data]).2.1
      (ODDSPORTAL_BASE ++ ("/football/a/b/c/").data) (by decide),
    (c9_amended [("/football/a/b/c/").data]).2.2
      (("/football/a/b/c/").data) (by decide) (by decide)⟩

/-! ## Structure of `slug`'s output -/

/-- Characters are equal when their code points are. -/
theorem char_eq_of_toNat {a b : Char} (h : a.toNat = b.toNat) : a = b :=
  Char.ext (UInt32.ext (by simpa [Char.toNat] using h))

/-- `str.lower` fixes every character of the kept class `[a-z0-9 ]`. -/
theorem pyLower_keep {c : Char} (h : keepChar c = true) : pyLower c = c := by
  unfold keepChar at h
  simp only [Bool.or_eq_true, Bool.and_eq_true, decide_eq_true_eq] at h
  unfold pyLower
  split_ifs with h1 h2
  · exfalso; rcases h with (⟨h3, h4⟩ | ⟨h3, h4⟩) | h3 <;> omega
  · exfalso; rcases h with (⟨h3, h4⟩ | ⟨h3, h4⟩) | h3 <;> omega
  · rfl

/-- The only whitespace character in the kept class is the plain space. -/
theorem keep_space_eq {c : Char} (hk : keepChar c = true)
    (hs : isPySpace c = true) : c = ' ' := by
  unfold keepChar at hk
  unfold isPySpace at hs
  simp only [Bool.or_eq_true, Bool.and_eq_true, decide_eq_true_eq] at hk hs
  refine char_eq_of_toNat ?_
  show c.toNat = 32
  rcases hk with (⟨h3, h4⟩ | ⟨h3, h4⟩) | h3 <;>
    rcases hs with ((((h | h) | h) | h) | h) | h <;> omega

/-- A predicate holding on every character still holds after `dropWhile`. -/
theorem all_dropWhile {p q : Char → Bool} {l : Str} (h : l.all p = true) :
    (l.dropWhile q).all p = true := by
  induction l with
  | nil => simp
  | cons c cs ih =>
    simp only [List.all_cons, Bool.and_eq_true] at h
    rw [List.dropWhile_cons]
    by_cases hq : q c
    · simp [hq, ih h.2]
    · simp [hq, h.1, h.2]

/-- A predicate holding on every character still holds after `rstrip`. -/
theorem all_rstrip {p : Char → Bool} {l : Str} (h : l.all p = true) :
    (rstrip l).all p = true := by
  induction l with
  | nil => simp [rstrip]
  | cons c cs ih =>
    simp only [List.all_cons, Bool.and_eq_true] at h
    rw [rstrip]
    cases hr : rstrip cs with
    | nil => by_cases hs : isPySpace c <;> simp [hs, h.1]
    | cons d ds =>
      have hall := ih h.2
      rw [hr] at hall
      simp [h.1, hall]

/-- A predicate holding on every character still holds after `pyStrip`. -/
theorem all_pyStrip {p : Char → Bool} {l : Str} (h : l.all p = true) :
    (pyStrip l).all p = true :=
  all_rstrip (all_dropWhile h)

/-- Whitespace collapsing keeps the output inside the kept class. -/
theorem all_collapseAux {l : Str} (h : l.all keepChar = true) :
    ∀ b, (collapseAux b l).all keepChar = true := by
  induction l with
  | nil => intro b; simp [collapseAux]
  | cons c cs ih =>
    intro b
    simp only [List.all_cons, Bool.and_eq_true] at h
    by_cases hs : isPySpace c
    · cases b <;> simp [collapseAux, hs, ih h.2, keepChar]
    · simp [collapseAux, hs, h.1, ih h.2]

/-- Every character of a slugged string lies in `[a-z0-9 ]`. -/
theorem slug_all_keep (s : Str) : (slug s).all keepChar = true := by
  have hf : ((collapseWs (ampRepl (pyStrip (s.map pyLower)))).filter
      keepChar).all keepChar = true :=
    List.all_eq_true.mpr fun a ha => (List.mem_filter.mp ha).2
  exact all_pyStrip hf

/-- Claim C7, counterexample: `_slug` deletes accented letters instead of
transliterating them — a string containing `México` normalizes to one
containing `mxico`, not `mexico`; and a hyphen between spaces is deleted,
not collapsed to a single space. -/
theorem c7_counterexample :
    slug (("México").data) = ("mxico").data ∧
    containsSub ("mexico").data (slug (("México").data)) = false ∧
    slug (("a - b").data) = ('a' :: ' ' :: ' ' :: 'b' :: []) := by decide

/-- Claim C7, amended: `_slug` lowercases and strips, maps `&` to `and`,
collapses whitespace runs to single spaces, then deletes every remaining
character outside `[a-z0-9 ]` (accented letters are deleted, not
transliterated; other non-alphanumerics are deleted, not replaced by a
space) and strips; consequently its output uses only characters of
`[a-z0-9 ]`, and a string containing `México` normalizes to one containing
`mxico`. -/
theorem c7_amended (s : Str) :
    (slug s).all keepChar = true ∧
    slug (("una tarde en México").data) = ("una tarde en mxico").data :=
  ⟨slug_all_keep s, by decide⟩

/-! ## Idempotence analysis of `_slug` -/

/-- `noAdjSpaces` restricted to the tail. -/
theorem noAdj_tail {c : Char} {X : Str} (h : noAdjSpaces (c :: X) = true) :
    noAdjSpaces X = true := by
  cases X with
  | nil => rfl
  | cons d ds =>
    simp only [noAdjSpaces, Bool.and_eq_true] at h
    exact h.2

/-- The adjacency condition on the first two characters. -/
theorem noAdj_pair {a b : Char} {r : Str}
    (h : noAdjSpaces (a :: b :: r) = true) :
    (isPySpace a && isPySpace b) = false := by
  simp only [noAdjSpaces, Bool.and_eq_true, Bool.not_eq_true'] at h
  exact h.1

/-- A non-space head can be added to any `noAdjSpaces` string. -/
theorem noAdj_cons_nonspace {c : Char} {X : Str} (hc : isPySpace c = false)
    (h : noAdjSpaces X = true) : noAdjSpaces (c :: X) = true := by
  cases X with
  | nil => rfl
  | cons d ds => simp [noAdjSpaces, hc, h]

/-- Any head can be added when the rest starts with a non-space. -/
theorem noAdj_cons_headNot {c : Char} {X : Str} (h1 : headNotSpace X = true)
    (h2 : noAdjSpaces X = true) : noAdjSpaces (c :: X) = true := by
  cases X with
  | nil => rfl
  | cons d ds =>
    have hd : isPySpace d = false := by simpa [headNotSpace] using h1
    simp [noAdjSpaces, hd, h2]

/-- After a whitespace character, a `noAdjSpaces` string continues with a
non-space. -/
theorem noAdj_head_after_space {c : Char} {X : Str}
    (h : noAdjSpaces (c :: X) = true) (hc : isPySpace c = true) :
    headNotSpace X = true := by
  cases X with
  | nil => rfl
  | cons d ds =>
    have hp := noAdj_pair h
    rw [hc] at hp
    simpa [headNotSpace] using hp

/-- After skipping the leading spaces the collapse output starts with a
non-space. -/
theorem collapseAux_true_headNot (l : Str) :
    headNotSpace (collapseAux true l) = true := by
  induction l with
  | nil => rfl
  | cons c cs ih =>
    by_cases hs : isPySpace c
    · simpa [collapseAux, hs] using ih
    · simp [collapseAux, hs, headNotSpace]

/-- Collapsed strings never contain two adjacent whitespace characters. -/
theorem collapseAux_noAdj (l : Str) :
    ∀ b, noAdjSpaces (collapseAux b l) = true := by
  induction l with
  | nil => intro b; rfl
  | cons c cs ih =>
    intro b
    by_cases hs : isPySpace c
    · cases b with
      | true => simpa [collapseAux, hs] using ih true
      | false =>
        simp only [collapseAux, hs, if_true]
        exact noAdj_cons_headNot (collapseAux_true_headNot cs) (ih true)
    · have hsf : isPySpace c = false := by simpa using hs
      simp only [collapseAux, hsf, Bool.false_eq_true, if_false]
      exact noAdj_cons_nonspace hsf (ih false)

/-- After `lstrip` the string starts with a non-space. -/
theorem lstrip_headNot (l : Str) : headNotSpace (lstrip l) = true := by
  induction l with
  | nil => rfl
  | cons c cs ih =>
    unfold lstrip at ih ⊢
    rw [List.dropWhile_cons]
    by_cases hs : isPySpace c
    · simpa [hs] using ih
    · simp [hs, headNotSpace]

/-- `lstrip` fixes strings that do not start with whitespace. -/
theorem lstrip_eq_self {l : Str} (h : headNotSpace l = true) : lstrip l = l := by
  cases l with
  | nil => rfl
  | cons c cs =>
    have hc : isPySpace c = false := by simpa [headNotSpace] using h
    simp [lstrip, List.dropWhile_cons, hc]

/-- `lstrip` preserves the no-adjacent-spaces shape. -/
theorem noAdj_lstrip {l : Str} (h : noAdjSpaces l = true) :
    noAdjSpaces (lstrip l) = true := by
  induction l with
  | nil => exact h
  | cons c cs ih =>
    unfold lstrip at ih ⊢
    rw [List.dropWhile_cons]
    by_cases hs : isPySpace c
    · simp only [hs, if_true]
      exact ih (noAdj_tail h)
    · simp [hs, h]

/-- `rstrip` either empties a string or keeps its head. -/
theorem rstrip_head (c : Char) (cs : Str) :
    rstrip (c :: cs) = [] ∨ ∃ ds, rstrip (c :: cs) = c :: ds := by
  rw [rstrip]
  cases rstrip cs with
  | nil =>
    by_cases hs : isPySpace c
    · left; simp [hs]
    · right; exact ⟨[], by simp [hs]⟩
  | cons d ds => right; exact ⟨d :: ds, rfl⟩

/-- `rstrip` preserves a non-space head. -/
theorem headNot_rstrip {l : Str} (h : headNotSpace l = true) :
    headNotSpace (rstrip l) = true := by
  cases l with
  | nil => exact h
  | cons c cs =>
    rcases rstrip_head c cs with hr | ⟨ds, hr⟩
    · rw [hr]; rfl
    · rw [hr]; simpa [headNotSpace] using h

/-- `rstrip` preserves the no-adjacent-spaces shape. -/
theorem noAdj_rstrip {l : Str} (h : noAdjSpaces l = true) :
    noAdjSpaces (rstrip l) = true := by
  induction l with
  | nil => exact h
  | cons c cs ih =>
    rw [rstrip]
    cases hr : rstrip cs with
    | nil =>
      by_cases hs : isPySpace c
      · simp [hs, noAdjSpaces]
      · simp [hs, noAdjSpaces]
    | cons d ds =>
      have h2 : noAdjSpaces (d :: ds) = true := by
        have h3 := ih (noAdj_tail h)
        rwa [hr] at h3
      cases cs with
      | nil => simp [rstrip] at hr
      | cons e es =>
        rcases rstrip_head e es with hr' | ⟨ds', hr'⟩
        · rw [hr'] at hr; exact absurd hr (by simp)
        · rw [hr'] at hr
          injection hr with h1 h4
          subst h1
          have hpair := noAdj_pair h
          simp [noAdjSpaces, h2, hpair]

/-- `rstrip` leaves no trailing whitespace. -/
theorem rstrip_noTrail (l : Str) : noTrailSpace (rstrip l) = true := by
  induction l with
  | nil => rfl
  | cons c cs ih =>
    rw [rstrip]
    cases hr : rstrip cs with
    | nil =>
      by_cases hs : isPySpace c
      · simp [hs, noTrailSpace]
      · simp [hs, noTrailSpace]
    | cons d ds =>
      have h2 := ih
      rw [hr] at h2
      simpa [noTrailSpace] using h2

/-- `rstrip` fixes strings without trailing whitespace. -/
theorem rstrip_eq_self {l : Str} (h : noTrailSpace l = true) : rstrip l = l := by
  induction l with
  | nil => rfl
  | cons c cs ih =>
    cases cs with
    | nil =>
      have hc : isPySpace c = false := by simpa [noTrailSpace] using h
      simp [rstrip, hc]
    | cons d ds =>
      have h2 : noTrailSpace (d :: ds) = true := by simpa [noTrailSpace] using h
      rw [rstrip, ih h2]

/-- Stripping an already-stripped string changes nothing. -/
theorem pyStrip_idem (l : Str) : pyStrip (pyStrip l) = pyStrip l := by
  unfold pyStrip
  rw [lstrip_eq_self (headNot_rstrip (lstrip_headNot l)),
    rstrip_eq_self (rstrip_noTrail (lstrip l))]

/-- `pyStrip` preserves the no-adjacent-spaces shape. -/
theorem noAdj_pyStrip {l : Str} (h : noAdjSpaces l = true) :
    noAdjSpaces (pyStrip l) = true := noAdj_rstrip (noAdj_lstrip h)

/-- On kept characters with no adjacent spaces, collapsing is the
identity (and also with the run flag set, when the head is not a space). -/
theorem collapseAux_eq_self {l : Str} (hk : l.all keepChar = true)
    (hn : noAdjSpaces l = true) :
    collapseAux false l = l ∧
      (headNotSpace l = true → collapseAux true l = l) := by
  induction l with
  | nil => exact ⟨rfl, fun _ => rfl⟩
  | cons c cs ih =>
    simp only [List.all_cons, Bool.and_eq_true] at hk
    have ihcs := ih hk.2 (noAdj_tail hn)
    by_cases hs : isPySpace c
    · have hc : c = ' ' := keep_space_eq hk.1 hs
      have hhead : headNotSpace cs = true := noAdj_head_after_space hn hs
      constructor
      · simp only [collapseAux, hs, if_true, Bool.false_eq_true, if_false]
        rw [ihcs.2 hhead, hc]
      · intro hhn
        exfalso
        have hcf : isPySpace c = false := by simpa [headNotSpace] using hhn
        rw [hcf] at hs
        exact absurd hs (by simp)
    · have hsf : isPySpace c = false := by simpa using hs
      refine ⟨?_, fun _ => ?_⟩
      · simp only [collapseAux, hsf, Bool.false_eq_true, if_false]
        rw [ihcs.1]
      · simp only [collapseAux, hsf, Bool.false_eq_true, if_false]
        rw [ihcs.1]

/-- Collapsing is the identity on kept characters with no adjacent spaces. -/
theorem collapseWs_eq_self {l : Str} (hk : l.all keepChar = true)
    (hn : noAdjSpaces l = true) : collapseWs l = l :=
  (collapseAux_eq_self hk hn).1

/-- Lowercasing fixes strings of kept characters. -/
theorem map_pyLower_keep {l : Str} (h : l.all keepChar = true) :
    l.map pyLower = l := by
  induction l with
  | nil => rfl
  | cons c cs ih =>
    simp only [List.all_cons, Bool.and_eq_true] at h
    simp [pyLower_keep h.1, ih h.2]

/-- The `&`-replacement fixes strings of kept characters. -/
theorem ampRepl_keep {l : Str} (h : l.all keepChar = true) : ampRepl l = l := by
  induction l with
  | nil => rfl
  | cons c cs ih =>
    simp only [List.all_cons, Bool.and_eq_true] at h
    have hne : c ≠ '&' := by
      intro hc; subst hc; exact absurd h.1 (by decide)
    have ih2 := ih h.2
    simp only [ampRepl] at ih2 ⊢
    simp [List.flatMap_cons, hne, ih2]

/-- Filtering by `keepChar` fixes strings of kept characters. -/
theorem filter_keep_of_all {l : Str} (h : l.all keepChar = true) :
    l.filter keepChar = l :=
  List.filter_eq_self.mpr (List.all_eq_true.mp h)

/-- The collapse output stays within the kept class. -/
theorem all_collapseWs {l : Str} (h : l.all keepChar = true) :
    (collapseWs l).all keepChar = true := all_collapseAux h false

/-- On strings of kept characters `_slug` is just strip, collapse, strip. -/
theorem slug_of_keep {s : Str} (h : s.all keepChar = true) :
    slug s = pyStrip (collapseWs (pyStrip s)) := by
  unfold slug
  rw [map_pyLower_keep h, ampRepl_keep (all_pyStrip h),
    filter_keep_of_all (all_collapseWs (all_pyStrip h))]

/-- Claim C8, counterexample: `_slug` is not idempotent — deleting the
hyphen of `"a - b"` leaves two adjacent spaces, which only the second
application collapses. -/
theorem c8_counterexample :
    slug (("a - b").data) = ('a' :: ' ' :: ' ' :: 'b' :: []) ∧
    slug (slug (("a - b").data)) ≠ slug (("a - b").data) := by decide

/-- Claim C8, amended: `_slug` is idempotent on strings whose characters
all lie in `[a-z0-9 ]` (in general it is not: deleting a non-alphanumeric
character can merge two whitespace runs, which only the next application
collapses). -/
theorem c8_amended (s : Str) (h : s.all keepChar = true) :
    slug (slug s) = slug s := by
  have hu : slug s = pyStrip (collapseWs (pyStrip s)) := slug_of_keep h
  have hukeep : (slug s).all keepChar = true := slug_all_keep s
  have hadj : noAdjSpaces (slug s) = true := by
    rw [hu]
    exact noAdj_pyStrip (collapseAux_noAdj (pyStrip s) false)
  have hps : pyStrip (slug s) = slug s := by
    rw [hu]; exact pyStrip_idem _
  rw [slug_of_keep hukeep, hps, collapseWs_eq_self hukeep hadj, hps]

/-- Witness for the amended claim C8 at a concrete input. -/
theorem c8_amended_witness :
    (("a  b").data.all keepChar = true) ∧
    slug (slug (("a  b").data)) = slug (("a  b").data) :=
  ⟨by decide, c8_amended (("a  b").data) (by decide)⟩

example : slug ("  Tigres   UANL ").data = ("tigres uanl").data := by decide
example : slug ("México").data = ("mxico").data := by decide
example : slug ("a - b").data = ('a' :: ' ' :: ' ' :: 'b' :: []) := by decide
example : slug (slug ("a - b").data) = ('a' :: ' ' :: 'b' :: []) := by decide
example : split_match ("Tigres UANL vs Pachuca CF").data
    = (("Tigres UANL").data, ("Pachuca CF").data) := by decide
example : split_match ("Alpha Beta").data = (("Alpha Beta").data, []) := by
  decide
example : containsSub ("mexico").data (slug ("México").data) = false := by
  decide

end OddsHarvester
